import Mathlib

/-!
Verification of the mini-chatgpt message pipeline.

This file shallowly embeds the backend of the repository
(`src/backend/src/routes/messages.ts`, `src/backend/src/routes/conversations.ts`,
the pagination utility and the llm adapter's retry configuration) and the
client's message sort, and proves or refutes the frozen claims about it.

Modelling conventions:
* Machine timestamps (`Date.now()`, `createdAt`) are natural numbers of
  milliseconds.
* The Prisma store is a pair of insertion-ordered lists (conversations,
  messages); `findFirst` with an `orderBy` is modelled as a stable
  selection over insertion order, matching the behaviour of SQLite when no
  further tie-break column is given.
* Fresh cuids are modelled by passing the identifier a `create` would use
  as an explicit argument, with freshness hypotheses where a theorem
  needs them.
* The outcome of the provider call (`adapter.complete`) is abstracted into
  a three-way sum: a completion string, an error whose message contains
  `aborted` (cancellation), or any other error.
-/

namespace MiniChat

/-- Message row of the `messages` table (`prisma/migrations`): id, owning
conversation, role (`user` or `assistant`), content, creation time. -/
structure Message where
  id : String
  conversationId : String
  role : String
  content : String
  createdAt : Nat
deriving DecidableEq, Repr

/-- Conversation row of the `conversations` table, with the `displayIndex`
column added by migration `20251106062129_add_display_index`. -/
structure Conversation where
  id : String
  title : String
  displayIndex : Nat
  createdAt : Nat
  lastMessageAt : Option Nat
deriving DecidableEq, Repr

/-- The relational store: both tables in insertion order. -/
structure Store where
  conversations : List Conversation
  messages : List Message
deriving DecidableEq, Repr

/-- prisma.conversation.findUnique({ where: { id } }). -/
def findConversation (s : Store) (cid : String) : Option Conversation :=
  s.conversations.find? (fun c => c.id == cid)

/-- prisma.message.findUnique({ where: { id } }) — exact lookup by primary
key, with no condition on the owning conversation or the role. -/
def findMessageById (s : Store) (mid : String) : Option Message :=
  s.messages.find? (fun m => m.id == mid)

/-- Five minutes in milliseconds (`5 * 60 * 1000` in messages.ts). -/
def recencyWindowMs : Nat := 5 * 60 * 1000

/-- Where-clause of the duplicate search in messages.ts lines 55-67:
same conversation, same role, same content, created at or after
`now - 5 minutes`. -/
def isDupMatch (now : Nat) (cid role content : String) (m : Message) : Bool :=
  m.conversationId == cid && m.role == role && m.content == content &&
    decide (now - recencyWindowMs ≤ m.createdAt)

/-- prisma.message.findFirst({ where, orderBy: { createdAt: desc } }):
among the matching rows, the one with the greatest `createdAt`
(the earliest-inserted one on ties, matching a stable descending order). -/
def findRecentDuplicate (s : Store) (now : Nat) (cid role content : String) :
    Option Message :=
  match s.messages.filter (isDupMatch now cid role content) with
  | [] => none
  | m :: ms => some (ms.foldl (fun acc x => if acc.createdAt < x.createdAt then x else acc) m)

/-- Body of POST /:id/messages after zod validation (`sendMessageSchema`):
content (1..10000 chars), role defaulting to `user`, optional
`existingMessageId` idempotency hint. -/
structure SendRequest where
  conversationId : String
  content : String
  role : String := "user"
  existingMessageId : Option String := none
deriving Repr

/-- Outcome of `adapter.complete` as observed by the route's catch block:
a completion, an error whose message includes `aborted`, or any other
(exhausted-retry) failure. -/
inductive LlmOutcome
  | success (completion : String)
  | aborted
  | failure
deriving DecidableEq, Repr

/-- Responses the route can produce, tagged with their status codes below. -/
inductive SendResponse
  | notFound
  | cancelled
  | upstreamUnavailable (messageId : String)
  | created (message : Message) (reply : Message)
deriving DecidableEq, Repr

/-- HTTP status the route writes for each response shape
(404 / 499 / 502 / 201 in messages.ts). -/
def SendResponse.statusCode : SendResponse → Nat
  | .notFound => 404
  | .cancelled => 499
  | .upstreamUnavailable _ => 502
  | .created _ _ => 201

/-- Step 2 of the pipeline (messages.ts lines 33-88): resolve the user
message idempotently — by `existingMessageId` if supplied and found, else
by recent-duplicate content search, else create a new message (with the
store-assigned id `newUserId` and `createdAt = now`). Returns the updated
store and the resolved message. -/
def resolveUserMessage (s : Store) (now : Nat) (newUserId : String)
    (req : SendRequest) : Store × Message :=
  let viaId : Option Message :=
    match req.existingMessageId with
    | some mid => findMessageById s mid
    | none => none
  match viaId with
  | some m => (s, m)
  | none =>
    match findRecentDuplicate s now req.conversationId req.role req.content with
    | some m => (s, m)
    | none =>
      let m : Message :=
        ⟨newUserId, req.conversationId, req.role, req.content, now⟩
      ({ s with messages := s.messages ++ [m] }, m)

/-- The send pipeline POST /:id/messages (messages.ts lines 16-181):
404 when the conversation is unknown; otherwise resolve the user message
(step 2), call the provider, and on success append the assistant reply and
stamp `lastMessageAt`; on an `aborted` error respond 499 with no further
write; on any other provider error respond 502 carrying the resolved user
message id, with no further write. -/
def sendMessage (s : Store) (now : Nat) (newUserId newAssistantId : String)
    (req : SendRequest) (outcome : LlmOutcome) : Store × SendResponse :=
  match findConversation s req.conversationId with
  | none => (s, .notFound)
  | some _ =>
    let resolved := resolveUserMessage s now newUserId req
    let s1 := resolved.1
    let userMessage := resolved.2
    match outcome with
    | .aborted => (s1, .cancelled)
    | .failure => (s1, .upstreamUnavailable userMessage.id)
    | .success completion =>
      let reply : Message :=
        ⟨newAssistantId, req.conversationId, "assistant", completion, now⟩
      let s2 : Store :=
        { conversations :=
            s1.conversations.map (fun c =>
              if c.id == req.conversationId then { c with lastMessageAt := some now } else c),
          messages := s1.messages ++ [reply] }
      (s2, .created userMessage reply)

/-- Number of persisted messages of the given conversation with role `user`
and the given content — the quantity the idempotency property counts. -/
def countUserContent (s : Store) (cid content : String) : Nat :=
  (s.messages.filter (fun m =>
    m.conversationId == cid && m.role == "user" && m.content == content)).length

/-- prisma.conversation.findFirst({ orderBy: { displayIndex: desc } })
reduced to the quantity the route reads from it: the maximum existing
`displayIndex`, or `none` when the table is empty. -/
def maxDisplayIndex (s : Store) : Option Nat :=
  match s.conversations with
  | [] => none
  | c :: cs => some (cs.foldl (fun acc x => max acc x.displayIndex) c.displayIndex)

/-- POST /conversations (conversations.ts lines 21-64): compute the next
`displayIndex` as max+1 (1 when the table is empty), default the title to
"Conversation #N", and insert the new row (with the store-assigned id
`newId` and `createdAt = now`). -/
def createConversation (s : Store) (now : Nat) (newId : String)
    (titleOpt : Option String) : Store × Conversation :=
  let nextDisplayIndex :=
    match maxDisplayIndex s with
    | some m => m + 1
    | none => 1
  let title :=
    match titleOpt with
    | some t => t
    | none => "Conversation #" ++ toString nextDisplayIndex
  let c : Conversation := ⟨newId, title, nextDisplayIndex, now, none⟩
  ({ s with conversations := s.conversations ++ [c] }, c)

/-! Ordered reads. Prisma's `orderBy: { createdAt: ... }` names no second
sort column, so within equal `createdAt` the row order is the store's
underlying (insertion) order: modelled as a stable insertion sort. -/

/-- Stable insert for ascending `createdAt` order. -/
def insertAsc (m : Message) : List Message → List Message
  | [] => [m]
  | x :: xs => if m.createdAt ≤ x.createdAt then m :: x :: xs else x :: insertAsc m xs

/-- Stable sort by ascending `createdAt` (insertion order preserved on
ties), modelling `orderBy: { createdAt: 'asc' }`. -/
def sortByCreatedAtAsc : List Message → List Message
  | [] => []
  | m :: ms => insertAsc m (sortByCreatedAtAsc ms)

/-- Stable insert for descending `createdAt` order. -/
def insertDesc (m : Message) : List Message → List Message
  | [] => [m]
  | x :: xs => if x.createdAt ≤ m.createdAt then m :: x :: xs else x :: insertDesc m xs

/-- Stable sort by descending `createdAt` (insertion order preserved on
ties), modelling `orderBy: { createdAt: 'desc' }`. -/
def sortByCreatedAtDesc : List Message → List Message
  | [] => []
  | m :: ms => insertDesc m (sortByCreatedAtDesc ms)

/-- History fetch of the pipeline (messages.ts lines 96-103):
all messages of the conversation ordered by ascending `createdAt`. -/
def fetchHistory (s : Store) (cid : String) : List Message :=
  sortByCreatedAtAsc (s.messages.filter (fun m => m.conversationId == cid))

/-- Client-side sort in `useChatConversation` (use-chat-conversation hook):
the displayed list re-sorts the fetched items by `createdAt` ascending
(`Array.prototype.sort` is stable, and the comparator looks only at the
timestamp). -/
def clientDisplaySort (items : List Message) : List Message :=
  sortByCreatedAtAsc items

/-- Strict lexicographic order on identifier characters (by code point),
used as the identifier tie-break order. -/
def charListLtb : List Char → List Char → Bool
  | [], [] => false
  | [], _ :: _ => true
  | _ :: _, [] => false
  | a :: as, b :: bs =>
    if a.toNat < b.toNat then true
    else if b.toNat < a.toNat then false
    else charListLtb as bs

/-- The total order the specification claims for presentation:
(creation timestamp, identifier) lexicographically, identifier as
tie-break. Written from the spec's words, to compare against the source's
read paths. -/
def specPairOrder (a b : Message) : Prop :=
  a.createdAt < b.createdAt ∨
    (a.createdAt = b.createdAt ∧ charListLtb a.id.data b.id.data = true)

/-! Pagination (`src/backend/src/utils/pagination.ts`). -/

/-- Result shape of `createCursorPagination`; the cursors themselves are
opaque strings produced by `encodeCursor` (modelled below). -/
structure PaginatedResult where
  items : List Message
  nextCursorIsSome : Bool
  prevCursorIsSome : Bool
  hasMore : Bool
deriving DecidableEq, Repr

/-- createCursorPagination(items, limit): `hasMore` iff strictly more rows
than `limit` were fetched; in that case the page is the first `limit`
rows, otherwise all fetched rows. Note the `limit` used here is the raw
request limit, not the clamped one used by `buildPaginationQuery`. -/
def createCursorPagination (fetched : List Message) (limit : Nat) :
    PaginatedResult :=
  let hasMore := decide (limit < fetched.length)
  let resultItems := if hasMore then fetched.take limit else fetched
  { items := resultItems,
    nextCursorIsSome := hasMore && decide (resultItems.length > 0),
    prevCursorIsSome := decide (resultItems.length > 0),
    hasMore := hasMore }

/-- Clamp in `buildPaginationQuery`: `Math.min(Math.max(limit, 1), 100)`. -/
def clampLimit (limit : Nat) : Nat := min (max limit 1) 100

/-- Prisma `cursor: { id }` positioning: the rows from the first row whose
id is the cursor id onward (boundary row included — the route passes no
`skip`), or no rows when the id does not occur. -/
def applyCursor (rows : List Message) : Option String → List Message
  | none => rows
  | some cid => rows.dropWhile (fun m => m.id != cid)

/-- Rows matched by the paginated query before `take` is applied: the
conversation's messages in descending `createdAt` order, positioned at the
cursor when one is given. -/
def matchedRows (s : Store) (cid : String) (cursorId : Option String) :
    List Message :=
  applyCursor (sortByCreatedAtDesc (s.messages.filter (fun m => m.conversationId == cid)))
    cursorId

/-- The `findMany` of GET /conversations/:id combined with
`buildPaginationQuery` (already-decoded cursor id): fetch
`clampLimit limit + 1` rows — one extra row to detect whether more exist —
from the matched rows. -/
def fetchPage (s : Store) (cid : String) (cursorId : Option String)
    (limit : Nat) : List Message :=
  (matchedRows s cid cursorId).take (clampLimit limit + 1)

/-- GET /conversations/:id pagination core (conversations.ts lines
112-127): run the query with one extra row, then shape the page with
`createCursorPagination` at the raw limit. -/
def paginateMessages (s : Store) (cid : String) (cursorId : Option String)
    (limit : Nat) : PaginatedResult :=
  createCursorPagination (fetchPage s cid cursorId limit) limit

/-! Resilient call executor: `createHttpClient` in llmAdapter.ts.
The axios client is created with `timeout: 12000` — an axios timeout is a
per-request (hence per-attempt) bound; a timed-out attempt rejects with no
`response`. `axiosRetry` is installed with `retries: 2`, a custom
`retryDelay` of `500 * 2^(retryCount-1)` milliseconds slept after the
failed attempt settles and before the next attempt starts, and a custom
`retryCondition` consulted on every rejected attempt (a cancellation
rejects with no `response` attached, like a network failure). -/

/-- Error shape the `retryCondition` inspects: `response` is the optional
HTTP status (none for network-level failures, timeouts and
cancellations); `canceled` records whether the rejection came from the
abort signal (`axios.isCancel`), which the configured condition never
looks at. -/
structure AttemptError where
  response : Option Nat
  canceled : Bool
deriving DecidableEq, Repr

/-- What one attempt settles to. -/
inductive AttemptResult
  | ok (body : String)
  | err (e : AttemptError)
deriving DecidableEq, Repr

/-- retryCondition (llmAdapter.ts lines 395-398):
`!error.response || error.response.status >= 500`. -/
def retryCondition (e : AttemptError) : Bool :=
  e.response.isNone || decide (500 ≤ e.response.getD 0)

/-- retryDelay (llmAdapter.ts lines 390-394): `500 * 2^(retryCount - 1)`
milliseconds — 500 before the first retry, 1000 before the second. -/
def retryDelay (retryCount : Nat) : Nat := 500 * 2 ^ (retryCount - 1)

/-- Per-attempt axios timeout: `timeout: 12000` milliseconds. -/
def timeoutMs : Nat := 12000

/-- Retry cap: `retries: 2`. -/
def maxRetries : Nat := 2

/-- How long the underlying call of one attempt would take and what it
would settle to, absent the timeout. -/
structure AttemptSpec where
  duration : Nat
  result : AttemptResult
deriving Repr

/-- Effect of the per-attempt timeout: an attempt whose call would outlast
`timeoutMs` settles at `timeoutMs` with a network-level error (axios
rejects with code ECONNABORTED and no response). -/
def effectiveAttempt (a : AttemptSpec) : Nat × AttemptResult :=
  if timeoutMs ≤ a.duration then (timeoutMs, .err ⟨none, false⟩)
  else (a.duration, a.result)

/-- Trace of one executor run: the (start, settle) time span of every
attempt made, in order, and the final settled result. -/
structure ExecTrace where
  spans : List (Nat × Nat)
  result : AttemptResult
deriving DecidableEq, Repr

/-- The retry loop axios-retry installs around the client, started at
attempt number `retryCount` and wall-clock `clock`: run the attempt; on a
rejection, if the retry budget is not exhausted and `retryCondition`
holds, sleep `retryDelay` measured from the settle time and run the next
attempt; otherwise surface the rejection. `specs k` describes attempt
number `k`. -/
def runFrom (specs : Nat → AttemptSpec) (retryCount clock : Nat) : ExecTrace :=
  let eff := effectiveAttempt (specs retryCount)
  let settle := clock + eff.1
  match eff.2 with
  | .ok b => ⟨[(clock, settle)], .ok b⟩
  | .err e =>
    if h : retryCount < maxRetries ∧ retryCondition e then
      let t := runFrom specs (retryCount + 1) (settle + retryDelay (retryCount + 1))
      ⟨(clock, settle) :: t.spans, t.result⟩
    else ⟨[(clock, settle)], .err e⟩
termination_by maxRetries - retryCount
decreasing_by exact Nat.sub_lt_sub_left h.1 (Nat.lt_succ_self retryCount)

/-- One top-level adapter call through `createHttpClient`: the retry loop
with a fresh budget, starting at attempt 0 and time 0. -/
def runWithRetries (specs : Nat → AttemptSpec) : ExecTrace :=
  runFrom specs 0 0

/-! Cursor codec (`encodeCursor` / `decodeCursor` in pagination.ts).
`encodeCursor` is `Buffer.from(JSON.stringify(data)).toString('base64url')`
and `decodeCursor` is `JSON.parse(Buffer.from(cursor, 'base64url')
.toString('utf-8'))` inside a try/catch that rethrows any failure as the
typed `Invalid cursor format` error; the parsed value is cast to
`CursorData`, not validated. Bytes are natural numbers below 256; the
byte/char conversions are modelled bytewise, which is exact for ASCII
payloads (cuid identifiers and ISO timestamps are ASCII, Node's lenient
base64url decoder ignores non-alphabet characters, and its utf-8 decoder
never throws). -/

/-- The base64url alphabet. -/
def b64Chars : List Char :=
  "ABCDEFGHIJKLMNOPQRSTUVWXYZabcdefghijklmnopqrstuvwxyz0123456789-_".toList

/-- Encoding one 6-bit group. -/
def sixToChar (n : Nat) : Char := b64Chars.getD n 'A'

/-- Decoding one character; `none` for characters outside the alphabet,
which Node's decoder skips. -/
def charToSix (c : Char) : Option Nat := b64Chars.indexOf? c

/-- Base64url encoding of a byte list, unpadded as Node's
`toString('base64url')` produces it. -/
def b64encode : List Nat → List Char
  | b1 :: b2 :: b3 :: rest =>
    sixToChar (b1 / 4) :: sixToChar (b1 % 4 * 16 + b2 / 16) ::
      sixToChar (b2 % 16 * 4 + b3 / 64) :: sixToChar (b3 % 64) :: b64encode rest
  | [b1, b2] => [sixToChar (b1 / 4), sixToChar (b1 % 4 * 16 + b2 / 16), sixToChar (b2 % 16 * 4)]
  | [b1] => [sixToChar (b1 / 4), sixToChar (b1 % 4 * 16)]
  | [] => []

/-- Regrouping 6-bit values into bytes; a trailing lone value carries
fewer than 8 bits and is dropped, as Node does. -/
def sextetsToBytes : List Nat → List Nat
  | a :: b :: c :: d :: rest =>
    (a * 4 + b / 16) :: (b % 16 * 16 + c / 4) :: (c % 4 * 64 + d) :: sextetsToBytes rest
  | [a, b, c] => [a * 4 + b / 16, b % 16 * 16 + c / 4]
  | [a, b] => [a * 4 + b / 16]
  | [_] => []
  | [] => []

/-- Node's lenient base64url decoding: ignore foreign characters, then
regroup. -/
def b64decode (s : List Char) : List Nat := sextetsToBytes (s.filterMap charToSix)

/-- JSON values as `JSON.parse` produces them; numeric lexemes are kept
raw since nothing in the repository computes with them. -/
inductive Json where
  | null
  | bool (b : Bool)
  | num (raw : List Char)
  | str (s : List Char)
  | arr (elems : List Json)
  | obj (fields : List (List Char × Json))

/-- JSON whitespace. -/
def isWsChar (c : Char) : Bool := c == ' ' || c == '\t' || c == '\n' || c == '\r'

/-- Skip insignificant whitespace. -/
def skipWs (s : List Char) : List Char := s.dropWhile isWsChar

/-- Decimal digit test. -/
def isDigitChar (c : Char) : Bool := decide ('0' ≤ c) && decide (c ≤ '9')

/-- Hexadecimal digit value. -/
def hexVal (c : Char) : Option Nat :=
  if '0' ≤ c ∧ c ≤ '9' then some (c.toNat - 48)
  else if 'a' ≤ c ∧ c ≤ 'f' then some (c.toNat - 87)
  else if 'A' ≤ c ∧ c ≤ 'F' then some (c.toNat - 55)
  else none

/-- Single-character string escapes. -/
def escCharMap (e : Char) : Option Char :=
  if e == '"' then some '"'
  else if e == '\\' then some '\\'
  else if e == '/' then some '/'
  else if e == 'b' then some '\x08'
  else if e == 'f' then some '\x0c'
  else if e == 'n' then some '\n'
  else if e == 'r' then some '\x0d'
  else if e == 't' then some '\t'
  else none

/-- Body of a JSON string literal after the opening quote: literal
characters up to the closing quote, with escapes; raw control characters
are rejected as `JSON.parse` rejects them. -/
def parseStringBody : List Char → Option (List Char × List Char)
  | [] => none
  | c :: rest =>
    if c == '"' then some ([], rest)
    else if c == '\\' then
      match rest with
      | [] => none
      | e :: rest2 =>
        if e == 'u' then
          match rest2 with
          | h1 :: h2 :: h3 :: h4 :: rest3 =>
            match hexVal h1, hexVal h2, hexVal h3, hexVal h4 with
            | some v1, some v2, some v3, some v4 =>
              match parseStringBody rest3 with
              | some (tail, rem) =>
                some (Char.ofNat (((v1 * 16 + v2) * 16 + v3) * 16 + v4) :: tail, rem)
              | none => none
            | _, _, _, _ => none
          | _ => none
        else
          match escCharMap e with
          | some ec =>
            match parseStringBody rest2 with
            | some (tail, rem) => some (ec :: tail, rem)
            | none => none
          | none => none
    else if c.toNat < 32 then none
    else
      match parseStringBody rest with
      | some (tail, rem) => some (c :: tail, rem)
      | none => none

/-- Integer part of a JSON number: `0`, or a nonzero digit followed by
digits (leading zeros rejected, as in the JSON grammar). -/
def parseIntPart : List Char → Option (List Char × List Char)
  | [] => none
  | c :: rest =>
    if c == '0' then some ([c], rest)
    else if isDigitChar c then
      some (c :: rest.takeWhile isDigitChar, rest.dropWhile isDigitChar)
    else none

/-- Optional fraction part. -/
def parseFracPart (s : List Char) : Option (List Char × List Char) :=
  match s with
  | '.' :: rest =>
    match rest.takeWhile isDigitChar with
    | [] => none
    | ds => some ('.' :: ds, rest.dropWhile isDigitChar)
  | _ => some ([], s)

/-- Optional exponent part. -/
def parseExpPart (s : List Char) : Option (List Char × List Char) :=
  match s with
  | e :: rest =>
    if e == 'e' || e == 'E' then
      let signed : List Char × List Char :=
        match rest with
        | c :: r2 => if c == '+' || c == '-' then ([c], r2) else ([], rest)
        | [] => ([], rest)
      match signed.2.takeWhile isDigitChar with
      | [] => none
      | ds => some (e :: signed.1 ++ ds, signed.2.dropWhile isDigitChar)
    else some ([], s)
  | [] => some ([], [])

/-- A complete JSON number lexeme. -/
def parseNumLex (s : List Char) : Option (List Char × List Char) :=
  let negged : List Char × List Char :=
    match s with
    | c :: rest => if c == '-' then ([c], rest) else ([], s)
    | [] => ([], s)
  match parseIntPart negged.2 with
  | none => none
  | some (ip, s2) =>
    match parseFracPart s2 with
    | none => none
    | some (fp, s3) =>
      match parseExpPart s3 with
      | none => none
      | some (ep, s4) => some (negged.1 ++ ip ++ fp ++ ep, s4)

mutual

/-- A JSON value (fuelled recursive descent; the fuel only bounds nesting
depth and `jsonParse` supplies more than the input length). -/
def parseValue : Nat → List Char → Option (Json × List Char)
  | 0, _ => none
  | fuel + 1, s0 =>
    match skipWs s0 with
    | [] => none
    | c :: rest =>
      if c == '\x7b' then
        match skipWs rest with
        | [] => none
        | c2 :: rest2 =>
          if c2 == '\x7d' then some (.obj [], rest2)
          else
            match parseMembers fuel (c2 :: rest2) with
            | some (fields, rem) => some (.obj fields, rem)
            | none => none
      else if c == '[' then
        match skipWs rest with
        | [] => none
        | c2 :: rest2 =>
          if c2 == ']' then some (.arr [], rest2)
          else
            match parseElems fuel (c2 :: rest2) with
            | some (elems, rem) => some (.arr elems, rem)
            | none => none
      else if c == '"' then
        match parseStringBody rest with
        | some (str, rem) => some (.str str, rem)
        | none => none
      else if c == 't' then
        match rest with
        | 'r' :: 'u' :: 'e' :: rem => some (.bool true, rem)
        | _ => none
      else if c == 'f' then
        match rest with
        | 'a' :: 'l' :: 's' :: 'e' :: rem => some (.bool false, rem)
        | _ => none
      else if c == 'n' then
        match rest with
        | 'u' :: 'l' :: 'l' :: rem => some (.null, rem)
        | _ => none
      else
        match parseNumLex (c :: rest) with
        | some (lex, rem) => some (.num lex, rem)
        | none => none

/-- One or more `"key": value` members followed by the closing brace. -/
def parseMembers : Nat → List Char → Option (List (List Char × Json) × List Char)
  | 0, _ => none
  | fuel + 1, s =>
    match skipWs s with
    | '"' :: rest =>
      match parseStringBody rest with
      | some (key, rem1) =>
        match skipWs rem1 with
        | ':' :: rem2 =>
          match parseValue fuel rem2 with
          | some (v, rem3) =>
            match skipWs rem3 with
            | ',' :: rem4 =>
              match parseMembers fuel rem4 with
              | some (fields, rem5) => some ((key, v) :: fields, rem5)
              | none => none
            | c :: rem4 =>
              if c == '\x7d' then some ([(key, v)], rem4) else none
            | [] => none
          | none => none
        | _ => none
      | none => none
    | _ => none

/-- One or more array elements followed by the closing bracket. -/
def parseElems : Nat → List Char → Option (List Json × List Char)
  | 0, _ => none
  | fuel + 1, s =>
    match parseValue fuel s with
    | some (v, rem) =>
      match skipWs rem with
      | ',' :: rem2 =>
        match parseElems fuel rem2 with
        | some (vs, rem3) => some (v :: vs, rem3)
        | none => none
      | c :: rem2 => if c == ']' then some ([v], rem2) else none
      | [] => none
    | none => none

end

/-- JSON.parse: one value, then nothing but whitespace. -/
def jsonParse (s : List Char) : Option Json :=
  match parseValue (s.length + 1) s with
  | some (j, rest) => if skipWs rest = [] then some j else none
  | none => none

/-- Lowercase hexadecimal digit. -/
def hexDigitChar (n : Nat) : Char :=
  if n < 10 then Char.ofNat (48 + n) else Char.ofNat (87 + n)

/-- JSON.stringify's escaping of one string character. -/
def jsonEscapeChar (c : Char) : List Char :=
  if c == '"' then ['\\', '"']
  else if c == '\\' then ['\\', '\\']
  else if c == '\x08' then ['\\', 'b']
  else if c == '\t' then ['\\', 't']
  else if c == '\n' then ['\\', 'n']
  else if c == '\x0c' then ['\\', 'f']
  else if c == '\x0d' then ['\\', 'r']
  else if c.toNat < 32 then
    ['\\', 'u', '0', '0', hexDigitChar (c.toNat / 16), hexDigitChar (c.toNat % 16)]
  else [c]

/-- JSON.stringify's escaping of a string. -/
def jsonEscape (s : List Char) : List Char := (s.map jsonEscapeChar).flatten

/-- JSON.stringify({ id, createdAt }): property order follows the object
literal, `id` first. -/
def jsonStringifyCursor (id createdAt : List Char) : List Char :=
  '\x7b' :: '"' :: 'i' :: 'd' :: '"' :: ':' :: '"' ::
    (jsonEscape id ++
      ('"' :: ',' :: '"' :: 'c' :: 'r' :: 'e' :: 'a' :: 't' :: 'e' :: 'd' :: 'A' :: 't' ::
        '"' :: ':' :: '"' ::
        (jsonEscape createdAt ++ ['"', '\x7d'])))

/-- The JSON value a well-formed cursor decodes to. -/
def cursorJson (id createdAt : List Char) : Json :=
  .obj [(['i', 'd'], .str id),
    (['c', 'r', 'e', 'a', 't', 'e', 'd', 'A', 't'], .str createdAt)]

/-- encodeCursor (pagination.ts line 239): stringify then base64url. -/
def encodeCursor (id createdAt : List Char) : List Char :=
  b64encode ((jsonStringifyCursor id createdAt).map Char.toNat)

/-- decodeCursor (pagination.ts lines 243-250): base64url-decode, parse,
return the parsed value unvalidated; any parse failure becomes the typed
`Invalid cursor format` error. -/
def decodeCursor (s : List Char) : Except String Json :=
  match jsonParse ((b64decode s).map Char.ofNat) with
  | some j => .ok j
  | none => .error "Invalid cursor format"

/-- Reading a string field out of a decoded cursor (the JS property
access `cursorData.id`). -/
def Json.getStringField : Json → List Char → Option (List Char)
  | .obj fields, key =>
    match fields.find? (fun f => f.1 == key) with
    | some (_, .str v) => some v
    | _ => none
  | _, _ => none

/-- Characters that JSON.stringify emits verbatim (printable ASCII other
than the quote and the backslash); cuid identifiers and ISO timestamps
consist of such characters only. -/
def jsonPlainChar (c : Char) : Prop :=
  32 ≤ c.toNat ∧ c.toNat < 128 ∧ c ≠ '"' ∧ c ≠ '\\'

/-- A string is a well-formed encoded cursor when some boundary pair
produces it. -/
def isEncodedCursor (s : List Char) : Prop :=
  ∃ id createdAt, encodeCursor id createdAt = s

/-- Non-increasing `createdAt` along a list: the order
`orderBy: { createdAt: 'desc' }` promises. -/
def descOrdered (l : List Message) : Prop :=
  l.Pairwise (fun a b => b.createdAt ≤ a.createdAt)

/-- A store with one conversation holding 102 messages, used to refute the
unclamped reading of C7. -/
def bigStore : Store :=
  ⟨[⟨"c1", "t", 1, 0, none⟩],
    (List.range 102).map (fun i => ⟨"m" ++ toString i, "c1", "user", "x", i⟩)⟩

/-- Non-decreasing `createdAt` along a list: the order
`orderBy: { createdAt: 'asc' }` (and the client's comparator) promises. -/
def ascOrdered (l : List Message) : Prop :=
  l.Pairwise (fun a b => a.createdAt ≤ b.createdAt)

/-- Store exhibiting a `createdAt` tie whose insertion order disagrees
with the identifier order: message "b" was inserted before message "a",
both at time 100. -/
def tieStore : Store :=
  ⟨[⟨"c1", "t", 1, 0, none⟩],
    [⟨"b", "c1", "user", "x", 100⟩, ⟨"a", "c1", "user", "y", 100⟩]⟩

/-- Consecutive attempts are separated by exactly the configured backoff
delay, measured from the settle time of the failed attempt: span `i+1`
starts `retryDelay (k+i+1)` after span `i` ends. -/
def delaysFrom : Nat → List (Nat × Nat) → Prop
  | _, [] => True
  | _, [_] => True
  | k, (_, e1) :: (s2, e2) :: rest =>
      s2 = e1 + retryDelay (k + 1) ∧ delaysFrom (k + 1) ((s2, e2) :: rest)

/-- Attempt schedule used to refute the total-ceiling reading of C5: two
server-class failures of 11999 ms each, then a success. -/
def slowSpecs : Nat → AttemptSpec :=
  fun k => if k < 2 then ⟨11999, .err ⟨some 500, false⟩⟩ else ⟨100, .ok "done"⟩

instance (c : Char) : Decidable (jsonPlainChar c) := by
  unfold jsonPlainChar
  infer_instance

/-! Helper lemmas. -/

/-- The element the duplicate search's fold settles on is one of the
candidates. -/
theorem foldl_latest_mem (ms : List Message) (m : Message) :
    ms.foldl (fun acc x => if acc.createdAt < x.createdAt then x else acc) m ∈ m :: ms := by
  induction ms generalizing m with
  | nil => simp
  | cons x xs ih =>
    simp only [List.foldl]
    have h := ih (if m.createdAt < x.createdAt then x else m)
    rw [List.mem_cons] at h
    rcases h with h | h
    · rw [List.mem_cons, List.mem_cons]
      by_cases hc : m.createdAt < x.createdAt
      · rw [if_pos hc] at h ⊢
        exact Or.inr (Or.inl h)
      · rw [if_neg hc] at h ⊢
        exact Or.inl h
    · exact List.mem_cons_of_mem _ (List.mem_cons_of_mem _ h)

/-- A found recent duplicate is a persisted message. -/
theorem findRecentDuplicate_mem {s : Store} {now : Nat} {cid role content : String}
    {m : Message} (h : findRecentDuplicate s now cid role content = some m) :
    m ∈ s.messages := by
  unfold findRecentDuplicate at h
  rcases hf : s.messages.filter (isDupMatch now cid role content) with _ | ⟨x, xs⟩
  · rw [hf] at h; exact absurd h (by simp)
  · rw [hf] at h
    simp only [Option.some.injEq] at h
    have hmem := foldl_latest_mem xs x
    rw [h] at hmem
    have : m ∈ s.messages.filter (isDupMatch now cid role content) := by
      rw [hf]; exact hmem
    exact List.mem_of_mem_filter this

/-- Step 2 never touches the conversations table. -/
theorem resolveUserMessage_conversations (s : Store) (now : Nat) (u : String)
    (req : SendRequest) : (resolveUserMessage s now u req).1.conversations = s.conversations := by
  unfold resolveUserMessage
  dsimp only
  split
  · rfl
  · split <;> rfl

/-- Step 2 either leaves the messages table unchanged (reuse) or appends
exactly the one new user message built from the request. -/
theorem resolveUserMessage_messages (s : Store) (now : Nat) (u : String)
    (req : SendRequest) :
    ((resolveUserMessage s now u req).1.messages = s.messages ∧
      (resolveUserMessage s now u req).2 ∈ s.messages) ∨
    ((resolveUserMessage s now u req).1.messages =
        s.messages ++ [⟨u, req.conversationId, req.role, req.content, now⟩] ∧
      (resolveUserMessage s now u req).2 =
        ⟨u, req.conversationId, req.role, req.content, now⟩) := by
  unfold resolveUserMessage
  dsimp only
  split
  next m hm =>
    rcases hex : req.existingMessageId with _ | mid
    · rw [hex] at hm; exact absurd hm (by simp)
    · rw [hex] at hm
      exact Or.inl ⟨rfl, List.mem_of_find?_eq_some hm⟩
  next hm =>
    split
    next m hdup => exact Or.inl ⟨rfl, findRecentDuplicate_mem hdup⟩
    next hdup => exact Or.inr ⟨rfl, rfl⟩

/-- The resolved user message is persisted in the store step 2 returns. -/
theorem resolveUserMessage_mem (s : Store) (now : Nat) (u : String)
    (req : SendRequest) :
    (resolveUserMessage s now u req).2 ∈ (resolveUserMessage s now u req).1.messages := by
  rcases resolveUserMessage_messages s now u req with ⟨heq, hmem⟩ | ⟨heq, hval⟩
  · rw [heq]; exact hmem
  · rw [heq, hval]; simp

/-- Appending a message whose role is not `assistant` does not change the
number of assistant messages. -/
theorem assistant_count_resolve (s : Store) (now : Nat) (u : String)
    (req : SendRequest) (hrole : req.role = "user") :
    ((resolveUserMessage s now u req).1.messages.filter
        (fun m => m.role == "assistant")).length =
      (s.messages.filter (fun m => m.role == "assistant")).length := by
  rcases resolveUserMessage_messages s now u req with ⟨heq, _⟩ | ⟨heq, _⟩
  · rw [heq]
  · rw [heq, List.filter_append]
    simp [hrole]

/-- On cancellation the pipeline returns 499 and performs no write beyond
step 2. -/
theorem sendMessage_aborted_eq {s : Store} {req : SendRequest} {c : Conversation}
    (hconv : findConversation s req.conversationId = some c)
    (now : Nat) (u a : String) :
    sendMessage s now u a req .aborted = ((resolveUserMessage s now u req).1, .cancelled) := by
  unfold sendMessage
  rw [hconv]

/-- On exhausted-retry failure the pipeline returns 502 carrying the
resolved user message id and performs no write beyond step 2. -/
theorem sendMessage_failure_eq {s : Store} {req : SendRequest} {c : Conversation}
    (hconv : findConversation s req.conversationId = some c)
    (now : Nat) (u a : String) :
    sendMessage s now u a req .failure =
      ((resolveUserMessage s now u req).1,
        .upstreamUnavailable (resolveUserMessage s now u req).2.id) := by
  unfold sendMessage
  rw [hconv]

/-- C2: for every send request whose provider call is cancelled mid-flight
(the adapter surfaces an error whose message contains `aborted`), the
pipeline responds with the distinguishable cancelled status HTTP 499,
persists no assistant message for the attempt (the count of assistant
messages in the store is unchanged), and the user message resolved in
step 2 remains persisted in the store. -/
theorem cancellation_suppresses_writes (s : Store) (now : Nat) (u a : String)
    (req : SendRequest) (c : Conversation)
    (hconv : findConversation s req.conversationId = some c)
    (hrole : req.role = "user") :
    (sendMessage s now u a req .aborted).2 = .cancelled ∧
    ((sendMessage s now u a req .aborted).2).statusCode = 499 ∧
    (sendMessage s now u a req .aborted).1 = (resolveUserMessage s now u req).1 ∧
    (resolveUserMessage s now u req).2 ∈ (sendMessage s now u a req .aborted).1.messages ∧
    ((sendMessage s now u a req .aborted).1.messages.filter
        (fun m => m.role == "assistant")).length =
      (s.messages.filter (fun m => m.role == "assistant")).length := by
  rw [sendMessage_aborted_eq hconv]
  exact ⟨rfl, rfl, rfl, resolveUserMessage_mem s now u req,
    assistant_count_resolve s now u req hrole⟩

/-- Witness for C2 at a concrete input: one conversation, empty message
table, a plain user send that the provider aborts. -/
theorem cancellation_suppresses_writes_witness :
    (sendMessage ⟨[⟨"c1", "Conversation #1", 1, 0, none⟩], []⟩ 5 "u1" "a1"
        ⟨"c1", "hello", "user", none⟩ .aborted).2 = SendResponse.cancelled :=
  (cancellation_suppresses_writes ⟨[⟨"c1", "Conversation #1", 1, 0, none⟩], []⟩
    5 "u1" "a1" ⟨"c1", "hello", "user", none⟩ ⟨"c1", "Conversation #1", 1, 0, none⟩
    (by decide) rfl).1

/-- C3: for every send request whose provider call fails after exhausting
retries (not a cancellation), the pipeline responds with the
distinguishable upstream-unavailable status HTTP 502 whose body carries
the identifier of the already-persisted user message, persists no
assistant message, and does not update the conversation's last-message
timestamp (the conversations table is unchanged). -/
theorem upstream_failure_contract (s : Store) (now : Nat) (u a : String)
    (req : SendRequest) (c : Conversation)
    (hconv : findConversation s req.conversationId = some c)
    (hrole : req.role = "user") :
    (sendMessage s now u a req .failure).2 =
      .upstreamUnavailable (resolveUserMessage s now u req).2.id ∧
    ((sendMessage s now u a req .failure).2).statusCode = 502 ∧
    (sendMessage s now u a req .failure).1.conversations = s.conversations ∧
    (resolveUserMessage s now u req).2 ∈ (sendMessage s now u a req .failure).1.messages ∧
    ((sendMessage s now u a req .failure).1.messages.filter
        (fun m => m.role == "assistant")).length =
      (s.messages.filter (fun m => m.role == "assistant")).length := by
  rw [sendMessage_failure_eq hconv]
  exact ⟨rfl, rfl, resolveUserMessage_conversations s now u req,
    resolveUserMessage_mem s now u req, assistant_count_resolve s now u req hrole⟩

/-- Witness for C3 at a concrete input: the 502 body carries the id of the
user message the run itself persisted. -/
theorem upstream_failure_contract_witness :
    (sendMessage ⟨[⟨"c1", "Conversation #1", 1, 0, none⟩], []⟩ 5 "u1" "a1"
        ⟨"c1", "hello", "user", none⟩ .failure).2 =
      SendResponse.upstreamUnavailable "u1" :=
  (upstream_failure_contract ⟨[⟨"c1", "Conversation #1", 1, 0, none⟩], []⟩
    5 "u1" "a1" ⟨"c1", "hello", "user", none⟩ ⟨"c1", "Conversation #1", 1, 0, none⟩
    (by decide) rfl).1

/-- C10: for every send request carrying an `existingMessageId` that the
exact-id lookup finds, the pipeline reuses that message as the resolved
user turn with no condition relating the message to the target
conversation or requiring its role to be `user` (the theorem quantifies
over an arbitrary found message), and on success returns it as the
request's user message. -/
theorem existing_message_reuse_unchecked (s : Store) (now : Nat) (u a : String)
    (req : SendRequest) (c : Conversation) (m : Message)
    (hconv : findConversation s req.conversationId = some c)
    (hreq : req.existingMessageId = some m.id)
    (hfind : findMessageById s m.id = some m) :
    resolveUserMessage s now u req = (s, m) ∧
    ∀ completion,
      (sendMessage s now u a req (.success completion)).2 =
        .created m ⟨a, req.conversationId, "assistant", completion, now⟩ := by
  have hres : resolveUserMessage s now u req = (s, m) := by
    unfold resolveUserMessage
    rw [hreq]
    dsimp only
    rw [hfind]
  refine ⟨hres, fun completion => ?_⟩
  unfold sendMessage
  rw [hconv]
  dsimp only
  rw [hres]

/-- Witness for C10 at a concrete input: the reused message is an
assistant message belonging to a different conversation, and it is still
returned as the request's user message. -/
theorem existing_message_reuse_unchecked_witness :
    resolveUserMessage
        ⟨[⟨"c1", "Conversation #1", 1, 0, none⟩],
          [⟨"m9", "other-conversation", "assistant", "alien", 0⟩]⟩
        5 "u1" ⟨"c1", "hello", "user", some "m9"⟩ =
      (⟨[⟨"c1", "Conversation #1", 1, 0, none⟩],
          [⟨"m9", "other-conversation", "assistant", "alien", 0⟩]⟩,
        ⟨"m9", "other-conversation", "assistant", "alien", 0⟩) :=
  (existing_message_reuse_unchecked
    ⟨[⟨"c1", "Conversation #1", 1, 0, none⟩],
      [⟨"m9", "other-conversation", "assistant", "alien", 0⟩]⟩
    5 "u1" "a1" ⟨"c1", "hello", "user", some "m9"⟩
    ⟨"c1", "Conversation #1", 1, 0, none⟩
    ⟨"m9", "other-conversation", "assistant", "alien", 0⟩
    (by decide) rfl (by decide)).1

/-- Seed bound for the running maximum of display counters. -/
theorem le_foldl_maxDI (l : List Conversation) (a : Nat) :
    a ≤ l.foldl (fun acc x => max acc x.displayIndex) a := by
  induction l generalizing a with
  | nil => simp
  | cons x xs ih => exact le_trans (Nat.le_max_left _ _) (ih _)

/-- Every member's display counter is bounded by the running maximum. -/
theorem mem_le_foldl_maxDI (l : List Conversation) (a : Nat) (c : Conversation)
    (hc : c ∈ l) : c.displayIndex ≤ l.foldl (fun acc x => max acc x.displayIndex) a := by
  induction l generalizing a with
  | nil => cases hc
  | cons x xs ih =>
    rcases List.mem_cons.mp hc with h | h
    · subst h
      exact le_trans (Nat.le_max_right _ _) (le_foldl_maxDI xs _)
    · exact ih _ h

/-- Computed form of POST /conversations: the next index is the running
maximum of existing display counters plus one. -/
theorem createConversation_eq (s : Store) (now : Nat) (newId : String)
    (titleOpt : Option String) :
    createConversation s now newId titleOpt =
      ({ s with conversations :=
          s.conversations ++
            [⟨newId,
              (match titleOpt with
                | some t => t
                | none => "Conversation #" ++
                    toString (s.conversations.foldl
                      (fun acc x => max acc x.displayIndex) 0 + 1)),
              s.conversations.foldl (fun acc x => max acc x.displayIndex) 0 + 1,
              now, none⟩] },
        ⟨newId,
          (match titleOpt with
            | some t => t
            | none => "Conversation #" ++
                toString (s.conversations.foldl
                  (fun acc x => max acc x.displayIndex) 0 + 1)),
          s.conversations.foldl (fun acc x => max acc x.displayIndex) 0 + 1,
          now, none⟩) := by
  unfold createConversation maxDisplayIndex
  obtain ⟨convs, msgs⟩ := s
  dsimp only
  rcases convs with _ | ⟨c, cs⟩
  · rfl
  · dsimp only [List.foldl]
    rw [Nat.zero_max]

/-- C8: every conversation creation assigns a display counter equal to one
plus the maximum existing counter value (1 when the store is empty,
because the running maximum of an empty table is 0), the new counter is
strictly greater than every existing one so counter values stay pairwise
distinct, and when the request supplies no title the title is exactly
"Conversation #N" for that counter value N. -/
theorem display_counter_allocation (s : Store) (now : Nat) (newId : String)
    (titleOpt : Option String)
    (hdist : (s.conversations.map (fun c => c.displayIndex)).Nodup) :
    (createConversation s now newId titleOpt).2.displayIndex =
      s.conversations.foldl (fun acc x => max acc x.displayIndex) 0 + 1 ∧
    (s.conversations = [] → (createConversation s now newId titleOpt).2.displayIndex = 1) ∧
    (∀ c ∈ s.conversations,
      c.displayIndex < (createConversation s now newId titleOpt).2.displayIndex) ∧
    ((createConversation s now newId titleOpt).1.conversations.map
        (fun c => c.displayIndex)).Nodup ∧
    (titleOpt = none →
      (createConversation s now newId titleOpt).2.title =
        "Conversation #" ++
          toString (createConversation s now newId titleOpt).2.displayIndex) := by
  rw [createConversation_eq]
  refine ⟨rfl, ?_, ?_, ?_, ?_⟩
  · intro h; rw [h]; rfl
  · intro c hc
    exact Nat.lt_succ_of_le (mem_le_foldl_maxDI _ 0 c hc)
  · rw [List.map_append, List.nodup_append]
    refine ⟨hdist, List.nodup_singleton _, ?_⟩
    intro x hx hy
    simp only [List.map_cons, List.map_nil, List.mem_singleton] at hy
    rcases List.mem_map.mp hx with ⟨c, hc, hcx⟩
    have := mem_le_foldl_maxDI s.conversations 0 c hc
    omega
  · intro h; rw [h]

/-- Witness for C8 at a concrete input: two existing conversations with
counters 1 and 5; the new one gets counter 6 and title "Conversation #6". -/
theorem display_counter_allocation_witness :
    (createConversation
        ⟨[⟨"c1", "t1", 1, 0, none⟩, ⟨"c2", "t2", 5, 0, none⟩], []⟩
        9 "c3" none).2.displayIndex = 5 + 1 :=
  (display_counter_allocation
    ⟨[⟨"c1", "t1", 1, 0, none⟩, ⟨"c2", "t2", 5, 0, none⟩], []⟩
    9 "c3" none (by decide)).1

/-- When no message of the conversation has the given user content, the
duplicate search's where-clause matches nothing. -/
theorem dup_filter_nil {s : Store} {cid content : String} (now : Nat)
    (h : countUserContent s cid content = 0) :
    s.messages.filter (isDupMatch now cid "user" content) = [] := by
  unfold countUserContent at h
  rw [List.length_eq_zero] at h
  rw [List.filter_eq_nil_iff]
  intro m hm
  have hnot : ¬ (m.conversationId == cid && m.role == "user" && m.content == content) = true := by
    intro hp
    have : m ∈ s.messages.filter (fun m =>
        m.conversationId == cid && m.role == "user" && m.content == content) :=
      List.mem_filter.mpr ⟨hm, hp⟩
    rw [h] at this
    cases this
  intro hd
  unfold isDupMatch at hd
  simp only [Bool.and_eq_true, decide_eq_true_eq] at hd hnot
  exact hnot ⟨⟨hd.1.1.1, hd.1.1.2⟩, hd.1.2⟩

/-- When no message of the conversation has the given user content, the
duplicate search comes back empty. -/
theorem findRecentDuplicate_none {s : Store} {cid content : String} (now : Nat)
    (h : countUserContent s cid content = 0) :
    findRecentDuplicate s now cid "user" content = none := by
  unfold findRecentDuplicate
  rw [dup_filter_nil now h]

/-- Step 2 creates a new message when no idempotency hint is supplied and
no recent duplicate exists. -/
theorem resolveUserMessage_creates {s : Store} {req : SendRequest} (now : Nat) (u : String)
    (hex : req.existingMessageId = none)
    (hdup : findRecentDuplicate s now req.conversationId req.role req.content = none) :
    resolveUserMessage s now u req =
      ({ s with messages :=
          s.messages ++ [⟨u, req.conversationId, req.role, req.content, now⟩] },
        ⟨u, req.conversationId, req.role, req.content, now⟩) := by
  unfold resolveUserMessage
  rw [hex]
  dsimp only
  rw [hdup]

/-- Step 2 reuses the message the duplicate search found when no
idempotency hint is supplied. -/
theorem resolveUserMessage_reuses {s : Store} {req : SendRequest} {m : Message}
    (now : Nat) (u : String)
    (hex : req.existingMessageId = none)
    (hdup : findRecentDuplicate s now req.conversationId req.role req.content = some m) :
    resolveUserMessage s now u req = (s, m) := by
  unfold resolveUserMessage
  rw [hex]
  dsimp only
  rw [hdup]

/-- Computed form of the pipeline on provider success. -/
theorem sendMessage_success_eq {s : Store} {req : SendRequest} {c : Conversation}
    (hconv : findConversation s req.conversationId = some c)
    (now : Nat) (u a completion : String) :
    sendMessage s now u a req (.success completion) =
      ({ conversations := (resolveUserMessage s now u req).1.conversations.map
            (fun cc => if cc.id == req.conversationId
              then { cc with lastMessageAt := some now } else cc),
          messages := (resolveUserMessage s now u req).1.messages ++
            [⟨a, req.conversationId, "assistant", completion, now⟩] },
        .created (resolveUserMessage s now u req).2
          ⟨a, req.conversationId, "assistant", completion, now⟩) := by
  unfold sendMessage
  rw [hconv]

/-- Stamping `lastMessageAt` does not change a conversation's id. -/
theorem stamp_preserves_id (x : Conversation) (cid : String) (now : Nat) :
    (if x.id == cid then { x with lastMessageAt := some now } else x).id = x.id := by
  split <;> rfl

/-- A store differing only in its messages answers conversation lookups
identically. -/
theorem findConversation_msgset (s : Store) (M : List Message) (cid : String) :
    findConversation { s with messages := M } cid = findConversation s cid := rfl

/-- Stamping `lastMessageAt` preserves which conversation ids can be
found. -/
theorem find?_isSome_map_stamp (l : List Conversation) (cid cid2 : String) (now : Nat) :
    ((l.map (fun c => if c.id == cid then { c with lastMessageAt := some now } else c)).find?
        (fun c => c.id == cid2)).isSome =
      (l.find? (fun c => c.id == cid2)).isSome := by
  induction l with
  | nil => rfl
  | cons x xs ih =>
    simp only [List.map_cons, List.find?]
    rw [stamp_preserves_id]
    by_cases h2 : (x.id == cid2) = true
    · rw [h2]
      rfl
    · rw [Bool.not_eq_true] at h2
      rw [h2]
      exact ih

/-- Lookup through a store whose conversations were all stamped with a
`lastMessageAt` update succeeds exactly when the plain lookup does. -/
theorem findConversation_stamp_isSome (s : Store) (M : List Message)
    (cid cid2 : String) (now : Nat) :
    (findConversation
      ⟨s.conversations.map
        (fun cc => if cc.id == cid then { cc with lastMessageAt := some now } else cc), M⟩
      cid2).isSome = (findConversation s cid2).isSome := by
  unfold findConversation
  exact find?_isSome_map_stamp s.conversations cid cid2 now

/-- C1: starting from a store that holds no user message with the given
content in the target conversation, running the send pipeline twice with
identical user content (no idempotency hint, any provider outcomes), the
second run inside the 5-minute recency window, results in exactly one
persisted matching user message: the first run persists it (count 1), the
second run's duplicate search finds exactly that message and step 2
reuses it — returning the first run's identifier `u1` — and the count is
still 1 afterwards. -/
theorem idempotent_retry (s : Store) (cid content : String) (t1 t2 : Nat)
    (u1 a1 u2 a2 : String) (o1 o2 : LlmOutcome) (c : Conversation)
    (hconv : findConversation s cid = some c)
    (hcount : countUserContent s cid content = 0)
    (hwin : t2 ≤ t1 + recencyWindowMs) :
    countUserContent (sendMessage s t1 u1 a1 ⟨cid, content, "user", none⟩ o1).1 cid content = 1 ∧
    findRecentDuplicate (sendMessage s t1 u1 a1 ⟨cid, content, "user", none⟩ o1).1
        t2 cid "user" content = some ⟨u1, cid, "user", content, t1⟩ ∧
    resolveUserMessage (sendMessage s t1 u1 a1 ⟨cid, content, "user", none⟩ o1).1
        t2 u2 ⟨cid, content, "user", none⟩ =
      ((sendMessage s t1 u1 a1 ⟨cid, content, "user", none⟩ o1).1,
        ⟨u1, cid, "user", content, t1⟩) ∧
    countUserContent
      (sendMessage (sendMessage s t1 u1 a1 ⟨cid, content, "user", none⟩ o1).1
        t2 u2 a2 ⟨cid, content, "user", none⟩ o2).1 cid content = 1 := by
  have hres1 : resolveUserMessage s t1 u1 ⟨cid, content, "user", none⟩ =
      ({ s with messages := s.messages ++ [⟨u1, cid, "user", content, t1⟩] },
        ⟨u1, cid, "user", content, t1⟩) :=
    resolveUserMessage_creates t1 u1 rfl (findRecentDuplicate_none t1 hcount)
  have hs0 : s.messages.filter (fun m =>
      m.conversationId == cid && m.role == "user" && m.content == content) = [] := by
    have h := hcount
    unfold countUserContent at h
    rwa [List.length_eq_zero] at h
  -- the store after run 1, by cases on the provider outcome
  have hrun1 : ((sendMessage s t1 u1 a1 ⟨cid, content, "user", none⟩ o1).1.messages =
        s.messages ++ [⟨u1, cid, "user", content, t1⟩] ∨
      ∃ comp, (sendMessage s t1 u1 a1 ⟨cid, content, "user", none⟩ o1).1.messages =
        (s.messages ++ [⟨u1, cid, "user", content, t1⟩]) ++
          [⟨a1, cid, "assistant", comp, t1⟩]) ∧
      (findConversation (sendMessage s t1 u1 a1 ⟨cid, content, "user", none⟩ o1).1 cid).isSome := by
    cases o1 with
    | aborted =>
      rw [sendMessage_aborted_eq hconv, hres1]
      refine ⟨Or.inl rfl, ?_⟩
      rw [findConversation_msgset, hconv]
      rfl
    | failure =>
      rw [sendMessage_failure_eq hconv, hres1]
      refine ⟨Or.inl rfl, ?_⟩
      rw [findConversation_msgset, hconv]
      rfl
    | success comp =>
      rw [sendMessage_success_eq hconv, hres1]
      dsimp only
      refine ⟨Or.inr ⟨comp, rfl⟩, ?_⟩
      rw [findConversation_stamp_isSome s _ cid cid t1, hconv]
      rfl
  obtain ⟨hmsgor, hconv1⟩ := hrun1
  -- the duplicate-search filter over the run-1 store is exactly the
  -- first run's created message
  have hmatch : isDupMatch t2 cid "user" content ⟨u1, cid, "user", content, t1⟩ = true := by
    simp only [isDupMatch, beq_self_eq_true, Bool.true_and, Bool.and_eq_true,
      decide_eq_true_eq]
    unfold recencyWindowMs at hwin ⊢
    omega
  have hsdup0 : s.messages.filter (isDupMatch t2 cid "user" content) = [] :=
    dup_filter_nil t2 hcount
  have hassist : ∀ comp,
      isDupMatch t2 cid "user" content ⟨a1, cid, "assistant", comp, t1⟩ = false := by
    intro comp
    simp [isDupMatch]
  have hfilter : (sendMessage s t1 u1 a1 ⟨cid, content, "user", none⟩ o1).1.messages.filter
      (isDupMatch t2 cid "user" content) = [⟨u1, cid, "user", content, t1⟩] := by
    rcases hmsgor with hmsg | ⟨comp, hmsg⟩
    · rw [hmsg, List.filter_append, hsdup0, List.nil_append]
      simp [List.filter_cons, hmatch]
    · rw [hmsg, List.filter_append, List.filter_append, hsdup0, List.nil_append]
      simp [List.filter_cons, hmatch, hassist comp]
  have hdup2 : findRecentDuplicate (sendMessage s t1 u1 a1 ⟨cid, content, "user", none⟩ o1).1
      t2 cid "user" content = some ⟨u1, cid, "user", content, t1⟩ := by
    unfold findRecentDuplicate
    rw [hfilter]
    rfl
  have hres2 : resolveUserMessage (sendMessage s t1 u1 a1 ⟨cid, content, "user", none⟩ o1).1
      t2 u2 ⟨cid, content, "user", none⟩ =
      ((sendMessage s t1 u1 a1 ⟨cid, content, "user", none⟩ o1).1,
        ⟨u1, cid, "user", content, t1⟩) :=
    resolveUserMessage_reuses t2 u2 rfl hdup2
  have hm1match : (fun m : Message =>
      m.conversationId == cid && m.role == "user" && m.content == content)
      ⟨u1, cid, "user", content, t1⟩ = true := by
    simp
  have hassist2 : ∀ (aid comp : String) (t : Nat),
      (fun m : Message =>
        m.conversationId == cid && m.role == "user" && m.content == content)
        ⟨aid, cid, "assistant", comp, t⟩ = false := by
    intro aid comp t
    simp
  have hcount1 : countUserContent (sendMessage s t1 u1 a1 ⟨cid, content, "user", none⟩ o1).1
      cid content = 1 := by
    unfold countUserContent
    rcases hmsgor with hmsg | ⟨comp, hmsg⟩
    · rw [hmsg, List.filter_append, hs0, List.nil_append]
      simp [List.filter_cons, hm1match]
    · rw [hmsg, List.filter_append, List.filter_append, hs0, List.nil_append]
      simp [List.filter_cons, hm1match, hassist2 a1 comp t1]
  refine ⟨hcount1, hdup2, hres2, ?_⟩
  -- run 2: step 2 reuses the first run's message and writes nothing; only
  -- a possible assistant reply is appended, which does not affect the
  -- user-content count
  rcases Option.isSome_iff_exists.mp hconv1 with ⟨c2, hc2⟩
  cases o2 with
  | aborted =>
    rw [sendMessage_aborted_eq hc2, hres2]
    exact hcount1
  | failure =>
    rw [sendMessage_failure_eq hc2, hres2]
    exact hcount1
  | success comp =>
    rw [sendMessage_success_eq hc2, hres2]
    dsimp only
    unfold countUserContent at hcount1 ⊢
    rw [List.filter_append, List.length_append]
    simp [hcount1, hassist2 a2 comp t2]

/-- Witness for C1 at a concrete input: a retry 100 ms after the first
(failed) send reuses the persisted message "u1" and leaves exactly one
matching user message. -/
theorem idempotent_retry_witness :
    countUserContent
      (sendMessage
        (sendMessage ⟨[⟨"c1", "Conversation #1", 1, 0, none⟩], []⟩ 1000 "u1" "a1"
          ⟨"c1", "hello", "user", none⟩ .failure).1
        1100 "u2" "a2" ⟨"c1", "hello", "user", none⟩ .failure).1 "c1" "hello" = 1 :=
  (idempotent_retry ⟨[⟨"c1", "Conversation #1", 1, 0, none⟩], []⟩ "c1" "hello"
    1000 1100 "u1" "a1" "u2" "a2" .failure .failure
    ⟨"c1", "Conversation #1", 1, 0, none⟩ (by decide) rfl (by decide)).2.2.2

/-- Membership through the stable descending insert. -/
theorem mem_insertDesc {b m : Message} {l : List Message} :
    b ∈ insertDesc m l ↔ b = m ∨ b ∈ l := by
  induction l with
  | nil => simp [insertDesc]
  | cons x xs ih =>
    rw [insertDesc]
    by_cases hc : x.createdAt ≤ m.createdAt
    · rw [if_pos hc]
      simp only [List.mem_cons]
    · rw [if_neg hc]
      simp only [List.mem_cons, ih]
      tauto

/-- The stable descending insert preserves descending order. -/
theorem insertDesc_descOrdered (m : Message) (l : List Message)
    (h : descOrdered l) : descOrdered (insertDesc m l) := by
  induction l with
  | nil => simp [insertDesc, descOrdered]
  | cons x xs ih =>
    rw [insertDesc]
    rcases List.pairwise_cons.mp h with ⟨hx, hxs⟩
    by_cases hc : x.createdAt ≤ m.createdAt
    · rw [if_pos hc]
      refine List.pairwise_cons.mpr ⟨?_, h⟩
      intro b hb
      rcases List.mem_cons.mp hb with rfl | hb
      · exact hc
      · exact le_trans (hx b hb) hc
    · rw [if_neg hc]
      refine List.pairwise_cons.mpr ⟨?_, ih hxs⟩
      intro b hb
      rcases mem_insertDesc.mp hb with rfl | hb
      · exact le_of_not_le hc
      · exact hx b hb

/-- The descending sort used by the pagination query is descending. -/
theorem sortByCreatedAtDesc_descOrdered (l : List Message) :
    descOrdered (sortByCreatedAtDesc l) := by
  induction l with
  | nil => exact List.Pairwise.nil
  | cons x xs ih => exact insertDesc_descOrdered x _ ih

/-- The rows matched by the paginated query are in descending creation
order (cursor positioning only drops a prefix). -/
theorem matchedRows_descOrdered (s : Store) (cid : String)
    (cursorId : Option String) : descOrdered (matchedRows s cid cursorId) := by
  unfold matchedRows applyCursor
  rcases cursorId with _ | cc
  · exact sortByCreatedAtDesc_descOrdered _
  · exact List.Pairwise.sublist (List.dropWhile_sublist _)
      (sortByCreatedAtDesc_descOrdered _)

/-- C7 (amended): for every paginated message query with an optional
(already-decoded) cursor and a limit between 1 and 100 — the range on
which the internal clamp `min (max limit 1) 100` is the identity — the
page is the first `limit` matched rows, hence contains at most `limit`
messages in descending creation order; the query fetches at most one
extra row beyond the limit; and `hasMore` is true iff strictly more rows
than the limit matched.  (For `limit > 100` the fetch is clamped to 101
rows while `createCursorPagination` still compares against the raw limit,
so the iff fails — see the counterexample.) -/
theorem pagination_query_contract (s : Store) (cid : String)
    (cursorId : Option String) (limit : Nat)
    (h1 : 1 ≤ limit) (h100 : limit ≤ 100) :
    (paginateMessages s cid cursorId limit).items =
      (matchedRows s cid cursorId).take limit ∧
    (paginateMessages s cid cursorId limit).items.length ≤ limit ∧
    descOrdered (paginateMessages s cid cursorId limit).items ∧
    (fetchPage s cid cursorId limit).length ≤ limit + 1 ∧
    ((paginateMessages s cid cursorId limit).hasMore = true ↔
      limit < (matchedRows s cid cursorId).length) := by
  have hclamp : clampLimit limit = limit := by
    unfold clampLimit
    rw [Nat.max_eq_left h1, Nat.min_eq_left h100]
  have hfetch : fetchPage s cid cursorId limit =
      (matchedRows s cid cursorId).take (limit + 1) := by
    unfold fetchPage
    rw [hclamp]
  have hflen : (fetchPage s cid cursorId limit).length =
      min (limit + 1) (matchedRows s cid cursorId).length := by
    rw [hfetch, List.length_take]
  have hitems : (paginateMessages s cid cursorId limit).items =
      (matchedRows s cid cursorId).take limit := by
    unfold paginateMessages createCursorPagination
    dsimp only
    by_cases hm : limit < (fetchPage s cid cursorId limit).length
    · rw [if_pos (by rw [decide_eq_true_eq]; exact hm)]
      rw [hfetch, List.take_take]
      rw [Nat.min_eq_left (Nat.le_succ limit)]
    · rw [if_neg (by rw [decide_eq_true_eq]; exact hm)]
      rw [Nat.not_lt, hflen] at hm
      have hlen : (matchedRows s cid cursorId).length ≤ limit := by omega
      rw [hfetch, List.take_of_length_le hlen,
        List.take_of_length_le (le_trans hlen (Nat.le_succ limit))]
  refine ⟨hitems, ?_, ?_, ?_, ?_⟩
  · rw [hitems, List.length_take]
    exact Nat.min_le_left _ _
  · rw [hitems]
    exact List.Pairwise.sublist (List.take_sublist _ _) (matchedRows_descOrdered s cid cursorId)
  · rw [hflen]
    exact Nat.min_le_left _ _
  · show (decide (limit < (fetchPage s cid cursorId limit).length) = true ↔ _)
    rw [decide_eq_true_eq, hflen]
    omega

/-- Witness for the amended C7 at a concrete input: two messages,
limit 1, cursor absent — the page is the single newest message and
`hasMore` is true. -/
theorem pagination_query_contract_witness :
    (paginateMessages
        ⟨[⟨"c1", "t", 1, 0, none⟩],
          [⟨"m1", "c1", "user", "a", 10⟩, ⟨"m2", "c1", "assistant", "b", 20⟩]⟩
        "c1" none 1).hasMore = true ↔
      1 < (matchedRows
        ⟨[⟨"c1", "t", 1, 0, none⟩],
          [⟨"m1", "c1", "user", "a", 10⟩, ⟨"m2", "c1", "assistant", "b", 20⟩]⟩
        "c1" none).length :=
  (pagination_query_contract
    ⟨[⟨"c1", "t", 1, 0, none⟩],
      [⟨"m1", "c1", "user", "a", 10⟩, ⟨"m2", "c1", "assistant", "b", 20⟩]⟩
    "c1" none 1 (by decide) (by decide)).2.2.2.2

/-- Counterexample to C7 as stated: at `limit = 101` the query matches 102
rows — strictly more than the limit — yet `hasMore` is false, because
`buildPaginationQuery` clamps the fetch to `100 + 1` rows while
`createCursorPagination` compares the fetched count against the raw
limit. So the flag is not "true iff more rows than the limit matched". -/
theorem pagination_hasMore_counterexample :
    (paginateMessages bigStore "c1" none 101).hasMore = false ∧
    101 < (matchedRows bigStore "c1" none).length := by
  constructor
  · rfl
  · rw [show (matchedRows bigStore "c1" none).length = 102 from rfl]
    omega

/-- Membership through the stable ascending insert. -/
theorem mem_insertAsc {b m : Message} {l : List Message} :
    b ∈ insertAsc m l ↔ b = m ∨ b ∈ l := by
  induction l with
  | nil => simp [insertAsc]
  | cons x xs ih =>
    rw [insertAsc]
    by_cases hc : m.createdAt ≤ x.createdAt
    · rw [if_pos hc]
      simp only [List.mem_cons]
    · rw [if_neg hc]
      simp only [List.mem_cons, ih]
      tauto

/-- The stable ascending insert preserves ascending order. -/
theorem insertAsc_ascOrdered (m : Message) (l : List Message)
    (h : ascOrdered l) : ascOrdered (insertAsc m l) := by
  induction l with
  | nil => simp [insertAsc, ascOrdered]
  | cons x xs ih =>
    rw [insertAsc]
    rcases List.pairwise_cons.mp h with ⟨hx, hxs⟩
    by_cases hc : m.createdAt ≤ x.createdAt
    · rw [if_pos hc]
      refine List.pairwise_cons.mpr ⟨?_, h⟩
      intro b hb
      rcases List.mem_cons.mp hb with rfl | hb
      · exact hc
      · exact le_trans hc (hx b hb)
    · rw [if_neg hc]
      refine List.pairwise_cons.mpr ⟨?_, ih hxs⟩
      intro b hb
      rcases mem_insertAsc.mp hb with rfl | hb
      · exact le_of_not_le hc
      · exact hx b hb

/-- The ascending sort used by the history fetch and the client's display
is ascending. -/
theorem sortByCreatedAtAsc_ascOrdered (l : List Message) :
    ascOrdered (sortByCreatedAtAsc l) := by
  induction l with
  | nil => exact List.Pairwise.nil
  | cons x xs ih => exact insertAsc_ascOrdered x _ ih

/-- The stable ascending insert is a permutation of pushing in front. -/
theorem insertAsc_perm (m : Message) (l : List Message) :
    (insertAsc m l).Perm (m :: l) := by
  induction l with
  | nil => exact List.Perm.refl _
  | cons x xs ih =>
    rw [insertAsc]
    by_cases hc : m.createdAt ≤ x.createdAt
    · rw [if_pos hc]
    · rw [if_neg hc]
      exact (List.Perm.cons x ih).trans (List.Perm.swap m x xs)

/-- The ascending sort presents exactly the input messages. -/
theorem sortByCreatedAtAsc_perm (l : List Message) :
    (sortByCreatedAtAsc l).Perm l := by
  induction l with
  | nil => exact List.Perm.refl _
  | cons x xs ih =>
    exact (insertAsc_perm x (sortByCreatedAtAsc xs)).trans (List.Perm.cons x ih)

/-- Counterexample to C9 as stated: with two equal-timestamp messages
whose insertion order disagrees with their identifier order, the history
fetch (ascending read path used as provider context) and the client's
displayed list both present "b" before "a", although the claimed
(creation timestamp, identifier) total order puts "a" strictly before
"b".  No read path sorts by the identifier tie-break: the backend orders
by `createdAt` alone and the client comparator looks only at the
timestamp. -/
theorem presentation_order_counterexample :
    fetchHistory tieStore "c1" =
      [⟨"b", "c1", "user", "x", 100⟩, ⟨"a", "c1", "user", "y", 100⟩] ∧
    specPairOrder ⟨"a", "c1", "user", "y", 100⟩ ⟨"b", "c1", "user", "x", 100⟩ ∧
    ¬ (fetchHistory tieStore "c1").Pairwise specPairOrder ∧
    ¬ (clientDisplaySort
        (paginateMessages tieStore "c1" none 20).items).Pairwise specPairOrder := by
  refine ⟨rfl, Or.inr ⟨rfl, by decide⟩, ?_, ?_⟩
  · intro h
    rw [show fetchHistory tieStore "c1" =
        [⟨"b", "c1", "user", "x", 100⟩, ⟨"a", "c1", "user", "y", 100⟩] from rfl] at h
    rcases List.pairwise_cons.mp h with ⟨hx, _⟩
    have hba := hx ⟨"a", "c1", "user", "y", 100⟩ (by simp)
    rcases hba with hlt | ⟨_, hid⟩
    · exact absurd hlt (by decide)
    · exact absurd hid (by decide)
  · intro h
    rw [show clientDisplaySort (paginateMessages tieStore "c1" none 20).items =
        [⟨"b", "c1", "user", "x", 100⟩, ⟨"a", "c1", "user", "y", 100⟩] from rfl] at h
    rcases List.pairwise_cons.mp h with ⟨hx, _⟩
    have hba := hx ⟨"a", "c1", "user", "y", 100⟩ (by simp)
    rcases hba with hlt | ⟨_, hid⟩
    · exact absurd hlt (by decide)
    · exact absurd hid (by decide)

/-- C9 (amended): every read path presents a conversation's messages
ordered by creation timestamp — ascending for the history fetch and the
client's displayed list, descending for the backward-pagination query —
and presents exactly the stored messages (a permutation, nothing dropped
or invented); but ties in `createdAt` follow the store's underlying
insertion order, not the identifier: the claimed identifier tie-break is
implemented on no path. -/
theorem presentation_order_amended (s : Store) (cid : String)
    (cursorId : Option String) (items : List Message) :
    ascOrdered (fetchHistory s cid) ∧
    (fetchHistory s cid).Perm
      (s.messages.filter (fun m => m.conversationId == cid)) ∧
    descOrdered (matchedRows s cid cursorId) ∧
    ascOrdered (clientDisplaySort items) ∧
    (clientDisplaySort items).Perm items :=
  ⟨sortByCreatedAtAsc_ascOrdered _, sortByCreatedAtAsc_perm _,
    matchedRows_descOrdered s cid cursorId,
    sortByCreatedAtAsc_ascOrdered _, sortByCreatedAtAsc_perm _⟩

/-- Unfolding: a successful attempt ends the loop. -/
theorem runFrom_ok {specs : Nat → AttemptSpec} {rc : Nat} {d : Nat} {b : String}
    (h : effectiveAttempt (specs rc) = (d, .ok b)) (clock : Nat) :
    runFrom specs rc clock = ⟨[(clock, clock + d)], .ok b⟩ := by
  unfold runFrom
  rw [h]

/-- Unfolding: a rejected attempt that is out of budget or fails the retry
condition surfaces its error. -/
theorem runFrom_err_stop {specs : Nat → AttemptSpec} {rc : Nat} {d : Nat} {e : AttemptError}
    (h : effectiveAttempt (specs rc) = (d, .err e))
    (hstop : ¬ (rc < maxRetries ∧ retryCondition e)) (clock : Nat) :
    runFrom specs rc clock = ⟨[(clock, clock + d)], .err e⟩ := by
  unfold runFrom
  rw [h]
  dsimp only
  rw [dif_neg hstop]

/-- Unfolding: a rejected attempt within budget satisfying the retry
condition sleeps the backoff delay from its settle time and retries. -/
theorem runFrom_err_retry {specs : Nat → AttemptSpec} {rc : Nat} {d : Nat} {e : AttemptError}
    (h : effectiveAttempt (specs rc) = (d, .err e))
    (hgo : rc < maxRetries ∧ retryCondition e) (clock : Nat) :
    runFrom specs rc clock =
      ⟨(clock, clock + d) ::
          (runFrom specs (rc + 1) (clock + d + retryDelay (rc + 1))).spans,
        (runFrom specs (rc + 1) (clock + d + retryDelay (rc + 1))).result⟩ := by
  conv_lhs => rw [runFrom]
  rw [h]
  dsimp only
  rw [dif_pos hgo]

/-- The first span of a run starts at the run's start clock. -/
theorem runFrom_spans_head (specs : Nat → AttemptSpec) (rc clock : Nat) :
    ∃ e tail, (runFrom specs rc clock).spans = (clock, e) :: tail := by
  rcases heff : effectiveAttempt (specs rc) with ⟨d, res⟩
  rcases res with b | e
  · rw [runFrom_ok heff]
    exact ⟨clock + d, [], rfl⟩
  · by_cases hgo : rc < maxRetries ∧ retryCondition e
    · rw [runFrom_err_retry heff hgo]
      exact ⟨clock + d, _, rfl⟩
    · rw [runFrom_err_stop heff hgo]
      exact ⟨clock + d, [], rfl⟩

/-- The loop makes at most `maxRetries - retryCount + 1` further
attempts. -/
theorem runFrom_spans_le (specs : Nat → AttemptSpec) (rc clock : Nat) :
    (runFrom specs rc clock).spans.length ≤ maxRetries - rc + 1 := by
  rcases heff : effectiveAttempt (specs rc) with ⟨d, res⟩
  rcases res with b | e
  · rw [runFrom_ok heff]
    simp
  · by_cases hgo : rc < maxRetries ∧ retryCondition e
    · rw [runFrom_err_retry heff hgo]
      have ih := runFrom_spans_le specs (rc + 1) (clock + d + retryDelay (rc + 1))
      have h1 : rc < maxRetries := hgo.1
      simp only [List.length_cons]
      omega
    · rw [runFrom_err_stop heff hgo]
      simp
termination_by maxRetries - rc
decreasing_by
  have h1 : rc < maxRetries := hgo.1
  omega

/-- The loop's trace satisfies the backoff-delay schedule. -/
theorem runFrom_delays (specs : Nat → AttemptSpec) (rc clock : Nat) :
    delaysFrom rc (runFrom specs rc clock).spans := by
  rcases heff : effectiveAttempt (specs rc) with ⟨d, res⟩
  rcases res with b | e
  · rw [runFrom_ok heff]
    trivial
  · by_cases hgo : rc < maxRetries ∧ retryCondition e
    · rw [runFrom_err_retry heff hgo]
      obtain ⟨e2, tail, hsp⟩ :=
        runFrom_spans_head specs (rc + 1) (clock + d + retryDelay (rc + 1))
      have ih := runFrom_delays specs (rc + 1) (clock + d + retryDelay (rc + 1))
      rw [hsp] at ih ⊢
      exact ⟨rfl, ih⟩
    · rw [runFrom_err_stop heff hgo]
      trivial
termination_by maxRetries - rc
decreasing_by
  have h1 : rc < maxRetries := hgo.1
  omega

/-- Every attempt individually settles within the per-attempt timeout. -/
theorem runFrom_span_bound (specs : Nat → AttemptSpec) (rc clock : Nat) :
    ∀ p ∈ (runFrom specs rc clock).spans, p.2 ≤ p.1 + timeoutMs := by
  have hd : (effectiveAttempt (specs rc)).1 ≤ timeoutMs := by
    unfold effectiveAttempt
    split
    · rfl
    · next hlt =>
      exact le_of_not_le hlt
  rcases heff : effectiveAttempt (specs rc) with ⟨d, res⟩
  rw [heff] at hd
  rcases res with b | e
  · rw [runFrom_ok heff]
    intro p hp
    rw [List.mem_singleton] at hp
    subst hp
    exact Nat.add_le_add_left hd clock
  · by_cases hgo : rc < maxRetries ∧ retryCondition e
    · rw [runFrom_err_retry heff hgo]
      intro p hp
      rcases List.mem_cons.mp hp with rfl | hp
      · exact Nat.add_le_add_left hd clock
      · exact runFrom_span_bound specs (rc + 1) (clock + d + retryDelay (rc + 1)) p hp
    · rw [runFrom_err_stop heff hgo]
      intro p hp
      rw [List.mem_singleton] at hp
      subst hp
      exact Nat.add_le_add_left hd clock
termination_by maxRetries - rc
decreasing_by
  have h1 : rc < maxRetries := hgo.1
  omega

/-- C5 (amended): one executor call makes at most 3 attempts (2 retries);
consecutive attempts are separated by `retryDelay` — 500 then 1000
milliseconds — measured from the end of the failed attempt; each attempt
is individually bounded by the 12000 ms timeout (the ceiling is
per-attempt, not a total across retries — see the counterexample); a
client-class (4xx) failure is never retried, the call surfacing it after
a single attempt; and a network-level or server-class first failure does
trigger a further attempt. -/
theorem executor_retry_policy (specs : Nat → AttemptSpec) :
    (runWithRetries specs).spans.length ≤ 3 ∧
    delaysFrom 0 (runWithRetries specs).spans ∧
    retryDelay 1 = 500 ∧ retryDelay 2 = 1000 ∧ timeoutMs = 12000 ∧
    (∀ p ∈ (runWithRetries specs).spans, p.2 ≤ p.1 + timeoutMs) ∧
    (∀ d status cflag, status < 500 →
      effectiveAttempt (specs 0) = (d, .err ⟨some status, cflag⟩) →
      runWithRetries specs = ⟨[(0, d)], .err ⟨some status, cflag⟩⟩) ∧
    (∀ d e, effectiveAttempt (specs 0) = (d, .err e) → retryCondition e = true →
      2 ≤ (runWithRetries specs).spans.length) := by
  refine ⟨?_, runFrom_delays specs 0 0, rfl, rfl, rfl,
    runFrom_span_bound specs 0 0, ?_, ?_⟩
  · have h := runFrom_spans_le specs 0 0
    exact h
  · intro d status cflag hs heff
    have hstop : ¬ ((0 : Nat) < maxRetries ∧ retryCondition ⟨some status, cflag⟩) := by
      intro hc
      have := hc.2
      unfold retryCondition at this
      simp only [Option.isNone_some, Bool.false_or, decide_eq_true_eq, Option.getD_some] at this
      omega
    have := runFrom_err_stop heff hstop 0
    rw [runWithRetries, this]
    norm_num
  · intro d e heff hcond
    have hgo : (0 : Nat) < maxRetries ∧ retryCondition e := by
      constructor
      · decide
      · exact hcond
    rw [runWithRetries, runFrom_err_retry heff hgo 0]
    obtain ⟨e2, tail, hsp⟩ := runFrom_spans_head specs 1 (0 + d + retryDelay 1)
    simp only [hsp, List.length_cons]
    omega

/-- Witness for the amended C5 at a concrete input: a 404 response on the
first attempt ends the call after exactly one attempt. -/
theorem executor_retry_policy_witness :
    runWithRetries (fun _ => ⟨100, .err ⟨some 404, false⟩⟩) =
      ⟨[(0, 100)], .err ⟨some 404, false⟩⟩ :=
  (executor_retry_policy (fun _ => ⟨100, .err ⟨some 404, false⟩⟩)).2.2.2.2.2.2.1
    100 404 false (by decide) rfl

/-- Counterexample to C5 as stated: no total timeout ceiling of 12000 ms
(12 time units) exists — each 11999 ms attempt passes its per-attempt
timeout, and the call completes successfully at total elapsed time
25598 ms, well beyond the claimed total ceiling, instead of being cut
off. -/
theorem executor_total_time_counterexample :
    runWithRetries slowSpecs =
      ⟨[(0, 11999), (12499, 24498), (25498, 25598)], .ok "done"⟩ ∧
    12000 < 25598 := by
  constructor
  · rw [runWithRetries, runFrom_err_retry rfl (by decide) 0,
      runFrom_err_retry rfl (by decide) _, runFrom_ok rfl _]
    decide
  · decide

/-- C6 (code bug): the configured `retryCondition` inspects only
`error.response`, and a cancellation rejects with no response attached, so
the condition classifies a cancelled attempt as retryable: an in-flight
cancellation is retried twice (three attempts, the later ones against an
already-aborted signal), with the backoff delays slept in between, before
the cancelled outcome finally surfaces — the spec requires cancellation
to suppress further retries and fail fast. The distinguishable cancelled
outcome does survive as the final result. -/
theorem cancellation_retried_bug :
    retryCondition ⟨none, true⟩ = true ∧
    (runWithRetries (fun _ => ⟨50, .err ⟨none, true⟩⟩)).spans =
      [(0, 50), (550, 600), (1600, 1650)] ∧
    (runWithRetries (fun _ => ⟨50, .err ⟨none, true⟩⟩)).result = .err ⟨none, true⟩ := by
  have hrun : runWithRetries (fun _ => ⟨50, .err ⟨none, true⟩⟩) =
      ⟨[(0, 50), (550, 600), (1600, 1650)], .err ⟨none, true⟩⟩ := by
    rw [runWithRetries, runFrom_err_retry rfl (by decide) 0,
      runFrom_err_retry rfl (by decide) _, runFrom_err_stop rfl (by decide) _]
    decide
  rw [hrun]
  exact ⟨rfl, rfl, rfl⟩

theorem parseStringBody_plain (s : List Char) (rest : List Char)
    (h : ∀ c ∈ s, jsonPlainChar c) :
    parseStringBody (s ++ '"' :: rest) = some (s, rest) := by
  induction s with
  | nil =>
    rw [List.nil_append, parseStringBody.eq_def]
    simp
  | cons c cs ih =>
    have hc := h c (List.mem_cons_self c cs)
    have hcs : ∀ x ∈ cs, jsonPlainChar x := fun x hx => h x (List.mem_cons_of_mem c hx)
    have hq : ¬ ((c == '"') = true) := by
      simp only [beq_iff_eq]
      exact hc.2.2.1
    have hb : ¬ ((c == '\\') = true) := by
      simp only [beq_iff_eq]
      exact hc.2.2.2
    have hctl : ¬ (c.toNat < 32) := by
      have := hc.1
      omega
    rw [List.cons_append, parseStringBody.eq_def]
    simp only [hq, hb, hctl, if_false, ite_false]
    rw [ih hcs]
    simp

theorem parseValue_str (f : Nat) (s rest : List Char) (h : ∀ c ∈ s, jsonPlainChar c) :
    parseValue (f + 1) ('"' :: (s ++ '"' :: rest)) = some (.str s, rest) := by
  show (match parseStringBody (s ++ '"' :: rest) with
    | some (str, rem) => some (Json.str str, rem)
    | none => none) = some (Json.str s, rest)
  rw [parseStringBody_plain s rest h]

theorem jsonEscapeChar_plain {c : Char} (h : jsonPlainChar c) : jsonEscapeChar c = [c] := by
  obtain ⟨h32, h128, hq, hb⟩ := h
  have hlt : ∀ (d : Char), d.toNat < 32 → ¬ ((c == d) = true) := by
    intro d hd
    simp only [beq_iff_eq]
    rintro rfl
    omega
  unfold jsonEscapeChar
  rw [if_neg (by simp only [beq_iff_eq]; exact hq),
      if_neg (by simp only [beq_iff_eq]; exact hb),
      if_neg (hlt _ (by decide)), if_neg (hlt _ (by decide)),
      if_neg (hlt _ (by decide)), if_neg (hlt _ (by decide)),
      if_neg (hlt _ (by decide)), if_neg (by omega)]

theorem jsonEscape_plain {s : List Char} (h : ∀ c ∈ s, jsonPlainChar c) :
    jsonEscape s = s := by
  induction s with
  | nil => rfl
  | cons c cs ih =>
    unfold jsonEscape at ih ⊢
    rw [List.map_cons, List.flatten_cons,
      jsonEscapeChar_plain (h c (List.mem_cons_self c cs)),
      ih (fun x hx => h x (List.mem_cons_of_mem c hx)), List.singleton_append]

theorem parseMembers_last (f : Nat) (key v rest : List Char)
    (hkey : ∀ c ∈ key, jsonPlainChar c) (hv : ∀ c ∈ v, jsonPlainChar c) :
    parseMembers (f + 1 + 1)
      ('"' :: (key ++ ('"' :: ':' :: '"' :: (v ++ ('"' :: '\x7d' :: rest))))) =
      some ([(key, Json.str v)], rest) := by
  show (match parseStringBody (key ++ ('"' :: ':' :: '"' :: (v ++ ('"' :: '\x7d' :: rest)))) with
    | some (k, rem1) =>
      (match skipWs rem1 with
        | ':' :: rem2 =>
          (match parseValue (f + 1) rem2 with
            | some (vv, rem3) =>
              (match skipWs rem3 with
                | ',' :: rem4 =>
                  (match parseMembers (f + 1) rem4 with
                    | some (fields, rem5) => some ((k, vv) :: fields, rem5)
                    | none => none)
                | c :: rem4 => if c == '\x7d' then some ([(k, vv)], rem4) else none
                | [] => none)
            | none => none)
        | _ => none)
    | none => none) = some ([(key, Json.str v)], rest)
  rw [parseStringBody_plain key _ hkey]
  show (match parseValue (f + 1) ('"' :: (v ++ ('"' :: '\x7d' :: rest))) with
    | some (vv, rem3) =>
      (match skipWs rem3 with
        | ',' :: rem4 =>
          (match parseMembers (f + 1) rem4 with
            | some (fields, rem5) => some ((key, vv) :: fields, rem5)
            | none => none)
        | c :: rem4 => if c == '\x7d' then some ([(key, vv)], rem4) else none
        | [] => none)
    | none => none) = some ([(key, Json.str v)], rest)
  rw [parseValue_str f v _ hv]
  rfl

theorem parseMembers_two (f : Nat) (key1 v1 key2 v2 rest : List Char)
    (hkey1 : ∀ c ∈ key1, jsonPlainChar c) (hv1 : ∀ c ∈ v1, jsonPlainChar c)
    (hkey2 : ∀ c ∈ key2, jsonPlainChar c) (hv2 : ∀ c ∈ v2, jsonPlainChar c) :
    parseMembers (f + 1 + 1 + 1)
      ('"' :: (key1 ++ ('"' :: ':' :: '"' :: (v1 ++ ('"' :: ',' :: '"' ::
        (key2 ++ ('"' :: ':' :: '"' :: (v2 ++ ('"' :: '\x7d' :: rest))))))))) =
      some ([(key1, Json.str v1), (key2, Json.str v2)], rest) := by
  show (match parseStringBody (key1 ++ ('"' :: ':' :: '"' :: (v1 ++ ('"' :: ',' :: '"' ::
        (key2 ++ ('"' :: ':' :: '"' :: (v2 ++ ('"' :: '\x7d' :: rest)))))))) with
    | some (k, rem1) =>
      (match skipWs rem1 with
        | ':' :: rem2 =>
          (match parseValue (f + 1 + 1) rem2 with
            | some (vv, rem3) =>
              (match skipWs rem3 with
                | ',' :: rem4 =>
                  (match parseMembers (f + 1 + 1) rem4 with
                    | some (fields, rem5) => some ((k, vv) :: fields, rem5)
                    | none => none)
                | c :: rem4 => if c == '\x7d' then some ([(k, vv)], rem4) else none
                | [] => none)
            | none => none)
        | _ => none)
    | none => none) = some ([(key1, Json.str v1), (key2, Json.str v2)], rest)
  rw [parseStringBody_plain key1 _ hkey1]
  show (match parseValue (f + 1 + 1) ('"' :: (v1 ++ ('"' :: ',' :: '"' ::
        (key2 ++ ('"' :: ':' :: '"' :: (v2 ++ ('"' :: '\x7d' :: rest))))))) with
    | some (vv, rem3) =>
      (match skipWs rem3 with
        | ',' :: rem4 =>
          (match parseMembers (f + 1 + 1) rem4 with
            | some (fields, rem5) => some ((key1, vv) :: fields, rem5)
            | none => none)
        | c :: rem4 => if c == '\x7d' then some ([(key1, vv)], rem4) else none
        | [] => none)
    | none => none) = some ([(key1, Json.str v1), (key2, Json.str v2)], rest)
  rw [parseValue_str (f + 1) v1 _ hv1]
  show (match parseMembers (f + 1 + 1) ('"' :: (key2 ++ ('"' :: ':' :: '"' ::
        (v2 ++ ('"' :: '\x7d' :: rest))))) with
    | some (fields, rem5) => some ((key1, Json.str v1) :: fields, rem5)
    | none => none) = some ([(key1, Json.str v1), (key2, Json.str v2)], rest)
  rw [parseMembers_last f key2 v2 rest hkey2 hv2]

theorem parseValue_cursor (f : Nat) (id cr rest : List Char)
    (hid : ∀ c ∈ id, jsonPlainChar c) (hcr : ∀ c ∈ cr, jsonPlainChar c) :
    parseValue (f + 1 + 1 + 1 + 1) (jsonStringifyCursor id cr ++ rest) =
      some (cursorJson id cr, rest) := by
  rw [jsonStringifyCursor, jsonEscape_plain hid, jsonEscape_plain hcr]
  simp only [List.cons_append, List.append_assoc, List.nil_append]
  show (match parseMembers (f + 1 + 1 + 1) ('"' :: 'i' :: 'd' :: '"' :: ':' :: '"' ::
      (id ++ ('"' :: ',' :: '"' :: 'c' :: 'r' :: 'e' :: 'a' :: 't' :: 'e' :: 'd' :: 'A' :: 't' ::
        '"' :: ':' :: '"' :: (cr ++ ('"' :: '\x7d' :: rest))))) with
    | some (fields, rem) => some (Json.obj fields, rem)
    | none => none) = some (cursorJson id cr, rest)
  rw [show ('"' :: 'i' :: 'd' :: '"' :: ':' :: '"' ::
      (id ++ ('"' :: ',' :: '"' :: 'c' :: 'r' :: 'e' :: 'a' :: 't' :: 'e' :: 'd' :: 'A' :: 't' ::
        '"' :: ':' :: '"' :: (cr ++ ('"' :: '\x7d' :: rest))))) =
      ('"' :: (['i', 'd'] ++ ('"' :: ':' :: '"' :: (id ++ ('"' :: ',' :: '"' ::
        (['c', 'r', 'e', 'a', 't', 'e', 'd', 'A', 't'] ++
          ('"' :: ':' :: '"' :: (cr ++ ('"' :: '\x7d' :: rest))))))))) from rfl]
  rw [parseMembers_two f ['i', 'd'] id ['c', 'r', 'e', 'a', 't', 'e', 'd', 'A', 't'] cr rest
    (by decide) hid (by decide) hcr]
  rfl

theorem jsonStringifyCursor_length (id cr : List Char)
    (hid : ∀ c ∈ id, jsonPlainChar c) (hcr : ∀ c ∈ cr, jsonPlainChar c) :
    (jsonStringifyCursor id cr).length = 24 + id.length + cr.length := by
  rw [jsonStringifyCursor, jsonEscape_plain hid, jsonEscape_plain hcr]
  simp only [List.length_cons, List.length_append, List.length_nil]
  ring_nf

theorem jsonParse_cursor (id cr : List Char)
    (hid : ∀ c ∈ id, jsonPlainChar c) (hcr : ∀ c ∈ cr, jsonPlainChar c) :
    jsonParse (jsonStringifyCursor id cr) = some (cursorJson id cr) := by
  unfold jsonParse
  have hlen := jsonStringifyCursor_length id cr hid hcr
  rw [hlen]
  rw [show 24 + id.length + cr.length + 1 =
      (21 + id.length + cr.length) + 1 + 1 + 1 + 1 by omega]
  rw [show jsonStringifyCursor id cr =
      jsonStringifyCursor id cr ++ [] from (List.append_nil _).symm]
  rw [parseValue_cursor (21 + id.length + cr.length) id cr [] hid hcr]
  rfl

theorem doc_bytes_lt (id cr : List Char)
    (hid : ∀ c ∈ id, jsonPlainChar c) (hcr : ∀ c ∈ cr, jsonPlainChar c) :
    ∀ b ∈ (jsonStringifyCursor id cr).map Char.toNat, b < 256 := by
  intro b hb
  rcases List.mem_map.mp hb with ⟨c, hc, rfl⟩
  rw [jsonStringifyCursor, jsonEscape_plain hid, jsonEscape_plain hcr] at hc
  simp only [List.mem_cons, List.mem_append] at hc
  have hid' : c ∈ id → c.toNat < 256 := fun hx => by
    have := (hid c hx).2.1
    omega
  have hcr' : c ∈ cr → c.toNat < 256 := fun hx => by
    have := (hcr c hx).2.1
    omega
  rcases hc with rfl | rfl | rfl | rfl | rfl | rfl | rfl | hx | rfl | rfl | rfl | rfl | rfl |
    rfl | rfl | rfl | rfl | rfl | rfl | rfl | rfl | rfl | rfl | hx2 | rfl | rfl | hnil
  all_goals first
    | decide
    | (exact hid' hx)
    | (exact hcr' hx2)
    | (cases hnil)

theorem charToSix_sixToChar : ∀ n, n < 64 → charToSix (sixToChar n) = some n := by decide


theorem b64_roundtrip (bs : List Nat) : (∀ b ∈ bs, b < 256) →
    b64decode (b64encode bs) = bs := by
  unfold b64decode
  induction bs using b64encode.induct with
  | case1 b1 b2 b3 rest ih =>
    intro h
    have h1 : b1 < 256 := h b1 (by simp)
    have h2 : b2 < 256 := h b2 (by simp)
    have h3 : b3 < 256 := h b3 (by simp)
    have hrest : ∀ b ∈ rest, b < 256 := fun b hb => h b (by simp [hb])
    rw [b64encode]
    rw [List.filterMap_cons_some (charToSix_sixToChar _ (by omega)),
        List.filterMap_cons_some (charToSix_sixToChar _ (by omega)),
        List.filterMap_cons_some (charToSix_sixToChar _ (by omega)),
        List.filterMap_cons_some (charToSix_sixToChar _ (by omega))]
    rw [sextetsToBytes]
    rw [ih hrest]
    simp only [List.cons.injEq]
    exact ⟨by omega, by omega, by omega, trivial⟩
  | case2 b1 b2 =>
    intro h
    have h1 : b1 < 256 := h b1 (by simp)
    have h2 : b2 < 256 := h b2 (by simp)
    rw [b64encode]
    rw [List.filterMap_cons_some (charToSix_sixToChar _ (by omega)),
        List.filterMap_cons_some (charToSix_sixToChar _ (by omega)),
        List.filterMap_cons_some (charToSix_sixToChar _ (by omega)),
        List.filterMap_nil]
    rw [sextetsToBytes]
    simp only [List.cons.injEq]
    exact ⟨by omega, by omega, trivial⟩
  | case3 b1 =>
    intro h
    have h1 : b1 < 256 := h b1 (by simp)
    rw [b64encode]
    rw [List.filterMap_cons_some (charToSix_sixToChar _ (by omega)),
        List.filterMap_cons_some (charToSix_sixToChar _ (by omega)),
        List.filterMap_nil]
    rw [sextetsToBytes]
    simp only [List.cons.injEq]
    exact ⟨by omega, trivial⟩
  | case4 =>
    intro h
    rfl


theorem decodeCursor_encodeCursor (id cr : List Char)
    (hid : ∀ c ∈ id, jsonPlainChar c) (hcr : ∀ c ∈ cr, jsonPlainChar c) :
    decodeCursor (encodeCursor id cr) = .ok (cursorJson id cr) := by
  unfold decodeCursor encodeCursor
  rw [b64_roundtrip _ (doc_bytes_lt id cr hid hcr), List.map_map]
  rw [show (Char.ofNat ∘ Char.toNat) = fun c : Char => c by
    funext c
    exact Char.ofNat_toNat c]
  rw [List.map_id']
  rw [jsonParse_cursor id cr hid hcr]

theorem decodeCursor_error_iff (s : List Char) :
    decodeCursor s = .error "Invalid cursor format" ↔
      jsonParse ((b64decode s).map Char.ofNat) = none := by
  unfold decodeCursor
  rcases hj : jsonParse ((b64decode s).map Char.ofNat) with _ | j <;> simp

theorem encodeCursor_head (id cr : List Char) :
    ∃ t, encodeCursor id cr = 'e' :: t := by
  unfold encodeCursor jsonStringifyCursor
  rw [List.map_cons, List.map_cons, List.map_cons, b64encode]
  exact ⟨_, rfl⟩

/-- Counterexample to C4 as stated: the cursor string "bnVsbA" — the
base64url encoding of the JSON literal `null` — is tampered input that no
boundary pair encodes (every genuine encoding starts with the base64url
of an opening brace, the character 'e'), yet `decodeCursor` does not
fail: `JSON.parse` succeeds on `null` and the unvalidated cast returns it
as if it were cursor data. Only downstream code then trips over it (the
route's catch-all turns the eventual property access into a generic 500,
not the typed cursor error). -/
theorem cursor_malformed_accepted :
    decodeCursor (String.toList "bnVsbA") = .ok Json.null ∧
    ¬ isEncodedCursor (String.toList "bnVsbA") := by
  constructor
  · rfl
  · rintro ⟨id, cr, h⟩
    obtain ⟨t, ht⟩ := encodeCursor_head id cr
    rw [ht, show String.toList "bnVsbA" = 'b' :: 'n' :: 'V' :: 's' :: 'b' :: 'A' :: [] from rfl]
      at h
    injection h with h1 h2
    exact absurd h1 (by decide)

/-- C4 (amended): encoding a boundary pair (message identifier, creation
timestamp rendered as a string) and decoding it yields exactly the same
pair — stated for fields made of the characters JSON.stringify emits
verbatim, which covers every cuid identifier and ISO timestamp; reading
the `id` and `createdAt` properties of the decoded value gives the
original components back; and decoding fails — deterministically, with
the typed `Invalid cursor format` error — exactly when the base64url
payload is not valid JSON. A malformed cursor whose payload happens to
be valid JSON of the wrong shape is accepted silently instead (see the
counterexample). -/
theorem cursor_roundtrip_and_typed_error (id cr : List Char)
    (hid : ∀ c ∈ id, jsonPlainChar c) (hcr : ∀ c ∈ cr, jsonPlainChar c) :
    decodeCursor (encodeCursor id cr) = .ok (cursorJson id cr) ∧
    Json.getStringField (cursorJson id cr) ['i', 'd'] = some id ∧
    Json.getStringField (cursorJson id cr)
      ['c', 'r', 'e', 'a', 't', 'e', 'd', 'A', 't'] = some cr ∧
    (∀ s, decodeCursor s = .error "Invalid cursor format" ↔
      jsonParse ((b64decode s).map Char.ofNat) = none) :=
  ⟨decodeCursor_encodeCursor id cr hid hcr, rfl, rfl, decodeCursor_error_iff⟩

/-- Witness for the amended C4 at a concrete input: the pair
("m1", "2025") round-trips through the codec. -/
theorem cursor_roundtrip_and_typed_error_witness :
    decodeCursor (encodeCursor ('m' :: '1' :: []) ('2' :: '0' :: '2' :: '5' :: [])) =
      .ok (cursorJson ('m' :: '1' :: []) ('2' :: '0' :: '2' :: '5' :: [])) :=
  (cursor_roundtrip_and_typed_error ('m' :: '1' :: []) ('2' :: '0' :: '2' :: '5' :: [])
    (by decide) (by decide)).1

end MiniChat
